import Mathlib

/-!
Shallow embedding of the transaction categorization engine
(`src/utils/categorizer.py`, class `TransactionCategorizer`) and proofs
about it.

Modelling conventions, used throughout:

* Python `str` values are Lean `String`s.  Python string operations are
  re-implemented over the underlying character list (`String.data`) so that
  every definition evaluates inside the kernel: `pyUpper` models
  `str.upper()` (ASCII case mapping, as `Char.toUpper`; the claims never
  exercise non-ASCII case folding), `pyStrip` models `str.strip()`
  (whitespace as `Char.isWhitespace`), `pyIn` models the substring test
  `needle in hay`.
* Python `float` amounts, delays and POSIX timestamps are modelled as exact
  integers (`Int`).  No claim depends on fractional values or on IEEE-754
  rounding, and the code performs no arithmetic whose integer specialization
  differs from the float one on the inputs the claims touch.
* A Python function that can raise an exception observable by its caller is
  modelled as returning `Except Unit`; a broad `except` that turns any
  failure into "no result" is modelled by mapping the `error` case to `none`
  at the corresponding call site.
* Mutable state on the `TransactionCategorizer` instance (rate-limiter
  deque and counters, the lazily initialized Gemini client flag, the
  mutable `ai_enabled` flag, the process clock advanced by `time.sleep`) is
  threaded explicitly through the functions that read or write it.  The
  input transaction dictionary is likewise threaded through `categorize`
  and returned, so that a mutation of the input would be visible in the
  returned value; the translation of the source contains no write to it.
* `re.search` and the prompt-template rendering (`str.format`) are external
  interpreters whose internals no claim depends on; they enter the model as
  function-valued fields of `Env` (an invalid regex pattern, treated as
  non-matching by the code, is folded into the `Bool` result).
-/

namespace Categorizer

/-- Python `str.strip()`: drop whitespace from both ends of a char list. -/
def trimChars (l : List Char) : List Char :=
  ((l.dropWhile Char.isWhitespace).reverse.dropWhile Char.isWhitespace).reverse

/-- Python `str.strip()` on a `String`. -/
def pyStrip (s : String) : String := ⟨trimChars s.data⟩

/-- Python `str.upper()` (ASCII case mapping). -/
def pyUpper (s : String) : String := ⟨s.data.map Char.toUpper⟩

/-- Helper for `pyIn`: does `needle` occur as a contiguous run in the list? -/
def pyInAux (needle : List Char) : List Char → Bool
  | [] => needle.isEmpty
  | c :: rest => needle.isPrefixOf (c :: rest) || pyInAux needle rest

/-- Python substring test `needle in hay`. -/
def pyIn (hay needle : String) : Bool := pyInAux needle.data hay.data

/-- Python `s.split(sep)` for a one-character separator, over char lists. -/
def splitOnChar (sep : Char) : List Char → List (List Char)
  | [] => [[]]
  | c :: rest =>
    let r := splitOnChar sep rest
    if c = sep then [] :: r
    else
      match r with
      | [] => [[c]]
      | x :: xs => (c :: x) :: xs

/-- Python `line.split(':', 1)[1]`: everything after the first colon
(callers guard on `startswith`, which guarantees the colon exists). -/
def afterFirstColon (l : List Char) : List Char :=
  (l.dropWhile (· ≠ ':')).drop 1

/-- Numeric value of a digit run (callers check `Char.isDigit` first). -/
def natOfDigits (l : List Char) : Nat :=
  l.foldl (fun a c => a * 10 + (c.toNat - '0'.toNat)) 0

/-- Digit run to `Nat`, `none` if empty or not all digits. -/
def digitsValue (l : List Char) : Option Nat :=
  if l ≠ [] ∧ l.all Char.isDigit then some (natOfDigits l) else none

/-- Python `int(s)`: strips whitespace, optional sign, then a digit run;
anything else raises `ValueError`, modelled as `none`.  (Underscore digit
separators and non-ASCII digits, which CPython also accepts, are not
modelled; no claim depends on them.) -/
def pyInt (l : List Char) : Option Int :=
  match trimChars l with
  | '+' :: r => (digitsValue r).map Int.ofNat
  | '-' :: r => (digitsValue r).map (fun n => -(n : Int))
  | t => (digitsValue t).map Int.ofNat

/-- Python `account.split('/')[0]`: the base account number before a
routing-code suffix. -/
def splitBase (s : String) : String := ⟨s.data.takeWhile (· ≠ '/')⟩

/-- Python `'/' in account`. -/
def hasSlash (s : String) : Bool := s.data.contains '/'

/-- Dynamic value of a transaction-dictionary entry, as the matcher's
`transaction.get(field)` sees it: a string, a number, or `None`. -/
inductive PyVal where
  | pstr (s : String)
  | pnum (n : Int)
  | pnone
deriving DecidableEq, Repr

/-- Python `str(v)`.  For numbers the code would render a float
(`"5.0"`-style); the claims never compare such renderings, so a simple
integer rendering with a trailing `.0` stands in for it. -/
def pyValStr : PyVal → String
  | .pstr s => s
  | .pnum n => ⟨(toString n).data ++ ['.', '0']⟩
  | .pnone => "None"

/-- Python truthiness of a dictionary value. -/
def pyTruthy : PyVal → Bool
  | .pstr s => !(s == "")
  | .pnum n => !(n == 0)
  | .pnone => false

/-- Python `float(v)`: numbers pass through, numeric strings parse, and
anything else raises, modelled as `none`.  (Fractional literals are not
modelled: amounts are integers in this embedding.) -/
def pyFloat : PyVal → Option Int
  | .pnum n => some n
  | .pstr s => pyInt s.data
  | .pnone => none

/-- The input transaction record.  Fields are the dictionary keys the
engine reads (`transaction.get(...)` in the source); `owner` is `Option`
because `_determine_owner` falls back to `"Unknown"` exactly when the key
is absent.  `ttype` models the `'type'` key. -/
structure Txn where
  description : String := ""
  counterparty_name : String := ""
  counterparty_account : String := ""
  account : String := ""
  institution : String := ""
  ttype : String := ""
  variable_symbol : String := ""
  amount : Int := 0
  amount_czk : Int := 0
  owner : Option String := none
  date : String := ""
  currency : String := "CZK"
deriving DecidableEq, Repr

/-- Dynamic field access `transaction.get(field)` used by the YAML-format
rule matcher, which names fields by strings.  An unknown key yields
`None`. -/
def Txn.getVal (t : Txn) : String → PyVal
  | "description" => .pstr t.description
  | "counterparty_name" => .pstr t.counterparty_name
  | "counterparty_account" => .pstr t.counterparty_account
  | "account" => .pstr t.account
  | "institution" => .pstr t.institution
  | "type" => .pstr t.ttype
  | "variable_symbol" => .pstr t.variable_symbol
  | "amount" => .pnum t.amount
  | "amount_czk" => .pnum t.amount_czk
  | "owner" => match t.owner with
    | some o => .pstr o
    | none => .pnone
  | "date" => .pstr t.date
  | "currency" => .pstr t.currency
  | _ => .pnone

/-- Python `str(transaction.get(field, ''))`. -/
def Txn.getStrD (t : Txn) (f : String) : String :=
  match t.getVal f with
  | .pnone => ""
  | v => pyValStr v

/-- A rule row loaded from the Google-Sheets source
(`_load_rules_from_sheets`): all twelve columns are always present,
empty-string or `None` when blank. -/
structure SheetsRule where
  priority : Int := 0
  description_contains : String := ""
  institution_exact : String := ""
  counterparty_account_exact : String := ""
  counterparty_name_contains : String := ""
  variable_symbol_exact : String := ""
  amount_czk_min : Option Int := none
  amount_czk_max : Option Int := none
  tier1 : String := ""
  tier2 : String := ""
  tier3 : String := ""
  owner : String := ""
deriving DecidableEq, Repr

/-- One sub-condition of a YAML `multi` match (the dictionary carries one
of the keys `contains` / `equals` / `greater_than` / `less_than`; a
sub-condition with none of them is a no-op in the source and is not
modelled). -/
inductive MultiCond where
  | contains (field value : String)
  | equalsTo (field : String) (value : PyVal)
  | gt (field : String) (bound : Int)
  | lt (field : String) (bound : Int)
deriving DecidableEq, Repr

/-- The `match` dictionary of an old-style YAML rule, keyed by its `type`.
A missing `match` key or an unrecognized `type`, both of which make
`_rule_matches` fall through to `return False`, are modelled by the rule
carrying `none` instead of a `YamlMatch`. -/
inductive YamlMatch where
  | contains (field value : String)
  | exact (field : String) (value : PyVal)
  | regex (field pattern : String)
  | amountRange (minAmount maxAmount : Option Int) (descContains : Option String)
  | multi (conds : List MultiCond)
deriving DecidableEq, Repr

/-- The `category` dictionary of a YAML rule; `category.get('tierN')` can
be `None`. -/
structure YamlCategory where
  tier1 : Option String := none
  tier2 : Option String := none
  tier3 : Option String := none
deriving DecidableEq, Repr

/-- A loaded manual rule, in one of the two representations
`_rule_matches` dispatches on: the Google-Sheets row shape (recognized in
the source by the presence of the `description_contains` /
`institution_exact` keys, which the Sheets loader always populates) or the
old YAML shape (`match` + `category`, whose loader populates neither of
those keys). -/
inductive MRule where
  | sheets (r : SheetsRule)
  | yaml (priority : Int) (cond : Option YamlMatch) (category : YamlCategory)
deriving DecidableEq, Repr

/-- Sort key `r.get('priority', 0)` of `_load_manual_rules`. -/
def MRule.priority : MRule → Int
  | .sheets r => r.priority
  | .yaml p _ _ => p

/-- External interpreters the matcher and the AI path delegate to; they
enter the model as oracle functions because no claim depends on their
internals.  `regexSearch pattern text` models
`bool(re.search(pattern, text, re.IGNORECASE))` with an invalid pattern
already folded to `false` (the `except re.error` branch); `renderPrompt`
models `_build_ai_prompt`'s template rendering. -/
structure Env where
  regexSearch : String → String → Bool
  renderPrompt : Txn → String

/-- Translation of `_sheets_rule_matches`: every non-blank condition must
hold, checked in source order; blank conditions are skipped. -/
def sheetsRuleMatches (r : SheetsRule) (t : Txn) : Bool :=
  -- description_contains: case-insensitive substring of description
  (pyStrip r.description_contains == ""
    || pyIn (pyUpper t.description) (pyUpper (pyStrip r.description_contains))) &&
  -- institution_exact: case-insensitive equality
  (pyStrip r.institution_exact == ""
    || (pyUpper (pyStrip r.institution_exact) == pyUpper t.institution)) &&
  -- counterparty_account_exact: exact equality of stripped strings
  (pyStrip r.counterparty_account_exact == ""
    || (pyStrip r.counterparty_account_exact == pyStrip t.counterparty_account)) &&
  -- counterparty_name_contains: case-insensitive substring
  (pyStrip r.counterparty_name_contains == ""
    || pyIn (pyUpper t.counterparty_name) (pyUpper (pyStrip r.counterparty_name_contains))) &&
  -- variable_symbol_exact: exact equality of stripped strings
  (pyStrip r.variable_symbol_exact == ""
    || (pyStrip r.variable_symbol_exact == pyStrip t.variable_symbol)) &&
  -- amount_czk_min / amount_czk_max: inclusive range when present
  (match r.amount_czk_min with
    | some m => !(decide (t.amount_czk < m))
    | none => true) &&
  (match r.amount_czk_max with
    | some m => !(decide (t.amount_czk > m))
    | none => true)

/-- Translation of one `multi` sub-condition.  The numeric comparisons run
`float(field_value)` on a truthy field value, which raises `ValueError`
for a non-numeric string: that exception, which propagates out of
`_rule_matches`, is the `Except.error` case. -/
def evalMultiCond (t : Txn) : MultiCond → Except Unit Bool
  | .contains f v =>
    .ok (pyIn (pyUpper (pyValStr (t.getVal f))) (pyUpper v))
  | .equalsTo f v =>
    .ok (pyUpper (pyValStr (t.getVal f)) == pyUpper (pyValStr v))
  | .gt f b =>
    if pyTruthy (t.getVal f) then
      match pyFloat (t.getVal f) with
      | some q => .ok (decide (q > b))
      | none => .error ()
    else .ok false
  | .lt f b =>
    if pyTruthy (t.getVal f) then
      match pyFloat (t.getVal f) with
      | some q => .ok (decide (q < b))
      | none => .error ()
    else .ok false

/-- The `multi` loop: the first failing sub-condition returns `False`, an
exception propagates, and an exhausted loop returns `True`. -/
def evalMultiConds (t : Txn) : List MultiCond → Except Unit Bool
  | [] => .ok true
  | c :: cs =>
    match evalMultiCond t c with
    | .error e => .error e
    | .ok false => .ok false
    | .ok true => evalMultiConds t cs

/-- Translation of the old-YAML-format branch of `_rule_matches`. -/
def evalYamlMatch (env : Env) (t : Txn) : YamlMatch → Except Unit Bool
  | .contains f v =>
    .ok (pyIn (pyUpper (t.getStrD f)) (pyUpper v))
  | .exact f v =>
    .ok (pyUpper (pyValStr (t.getVal f)) == pyUpper (pyValStr v))
  | .regex f pattern =>
    .ok (env.regexSearch pattern (t.getStrD f))
  | .amountRange minAmount maxAmount descContains =>
    .ok ((match minAmount with
            | some m => decide (m ≤ t.amount)
            | none => true) &&
         (match maxAmount with
            | some m => decide (t.amount ≤ m)
            | none => true) &&
         (match descContains with
            | some s => pyIn (pyUpper t.description) (pyUpper s)
            | none => true))
  | .multi conds => evalMultiConds t conds

/-- Translation of `_rule_matches`: dispatch on the rule representation,
then evaluate its conditions. -/
def ruleMatches (env : Env) (r : MRule) (t : Txn) : Except Unit Bool :=
  match r with
  | .sheets sr => .ok (sheetsRuleMatches sr t)
  | .yaml _ cond _ =>
    match cond with
    | none => .ok false
    | some m => evalYamlMatch env t m

/-- Category and owner a matched rule yields in `_apply_manual_rules`:
top-level tiers for a Sheets rule, the `category` dictionary (possibly
`None` entries) and no owner for a YAML rule. -/
def ruleCategory : MRule → Option String × Option String × Option String × String
  | .sheets r => (some r.tier1, some r.tier2, some r.tier3, r.owner)
  | .yaml _ _ c => (c.tier1, c.tier2, c.tier3, "")

/-- Insertion step of a stable priority-descending sort: the inserted rule
comes from earlier in the source order than everything already in the
list, so it goes in front of the first element whose priority does not
exceed its own. -/
def insertByPriority (r : MRule) : List MRule → List MRule
  | [] => [r]
  | x :: xs =>
    if x.priority ≤ r.priority then r :: x :: xs
    else x :: insertByPriority r xs

/-- The sort `_load_manual_rules` applies after loading:
`rules.sort(key=lambda r: r.get('priority', 0), reverse=True)`.  Python's
sort is stable and stability with a fixed key determines the output
uniquely, so this insertion sort computes the same list. -/
def sortRulesByPriority : List MRule → List MRule
  | [] => []
  | r :: rs => insertByPriority r (sortRulesByPriority rs)

/-- Rule loading as `_load_manual_rules` leaves `self.manual_rules`: the
raw source-order list, sorted by priority descending, stably. -/
def loadManualRules (raw : List MRule) : List MRule :=
  sortRulesByPriority raw

/-- The loop of `_apply_manual_rules` over the already-sorted rule list:
return on the first rule whose conditions evaluate `True`; an exception
from condition evaluation propagates; an exhausted loop returns `None`. -/
def firstRuleMatch (env : Env) (t : Txn) : List MRule → Except Unit (Option MRule)
  | [] => .ok none
  | r :: rs =>
    match ruleMatches env r t with
    | .error e => .error e
    | .ok true => .ok (some r)
    | .ok false => firstRuleMatch env t rs

/-- Translation of `_apply_manual_rules` on the sorted rule list held by
the engine. -/
def applyManualRules (env : Env) (rules : List MRule) (t : Txn) :
    Except Unit (Option (Option String × Option String × Option String × String)) :=
  (firstRuleMatch env t rules).map (Option.map ruleCategory)

/-- Selection rule in the spec's words ("the rule with the highest
priority among all matching rules; for equal-priority matches, the one
appearing first in the loaded order"), as a direct recursion over the
source-order list with a boolean match predicate: the current best is
replaced only by a strictly higher priority match further right. -/
def specBestMatch (p : MRule → Bool) : List MRule → Option MRule
  | [] => none
  | r :: rs =>
    if p r then
      match specBestMatch p rs with
      | some b => if r.priority < b.priority then some b else some r
      | none => some r
    else specBestMatch p rs

/-- Boolean form of "this rule's conditions evaluate `True` on `t`". -/
def matchesOk (env : Env) (t : Txn) (r : MRule) : Bool :=
  match ruleMatches env r t with
  | .ok true => true
  | _ => false

/-- First element satisfying a boolean predicate: the shape of the
matcher's loop once condition evaluation is known to raise nothing; used
to relate `firstRuleMatch` on the sorted list to `specBestMatch` on the
source-order list. -/
def findMatch (p : MRule → Bool) : List MRule → Option MRule
  | [] => none
  | r :: rs => if p r then some r else findMatch p rs

/-- One entry of `internal_transfers.detection_methods` in the config. -/
structure DetectionMethod where
  enabled : Bool := true
  mtype : String := ""
  keywords : List String := []
deriving DecidableEq, Repr

/-- The `internal_transfers` section of the categorization config, plus
the own-account set `_is_internal_transfer` consults. -/
structure ITConfig where
  own_accounts : List String := []
  exclusion_counterparty_names : List String := []
  exclusion_transaction_types : List String := []
  detection_methods : List DetectionMethod := []
  cat_tier1 : String := "Transfers"
  cat_tier2 : String := "Internal Transfer"
  cat_tier3 : String := "Between Own Accounts"
deriving DecidableEq, Repr

/-- Body of one iteration of the detection-method loop of
`_is_internal_transfer` (the method is already known to be enabled):
does this method detect a transfer? -/
def methodFires (own : List String) (t : Txn) (m : DetectionMethod) : Bool :=
  if m.mtype == "counterparty_in_own_accounts" then
    let counterparty := t.counterparty_account
    let account := t.account
    -- exact own-account membership
    if own.contains counterparty then true
    -- base-number match against each own account, both sides stripped
    else if !(counterparty == "")
        && own.any (fun oa =>
             (if hasSlash counterparty then splitBase counterparty else counterparty)
               == (if hasSlash oa then splitBase oa else oa)) then true
    -- self-transfer: own account vs counterparty, exact then stripped
    else if !(account == "") && !(counterparty == "")
        && (account == counterparty
            || ((if hasSlash account then splitBase account else account)
                 == (if hasSlash counterparty then splitBase counterparty else counterparty))) then
      true
    else false
  else if m.mtype == "description_keywords" then
    m.keywords.any (fun k =>
      pyIn (pyUpper t.description) (pyUpper k)
        || pyIn (pyUpper t.counterparty_name) (pyUpper k))
  else
    -- 'same_day_opposite_amount' is a pass in the source; unknown types fall through
    false

/-- The detection-method loop: skip disabled methods, return `True` on the
first method that fires, `False` when the loop exhausts. -/
def runDetection (own : List String) (t : Txn) : List DetectionMethod → Bool
  | [] => false
  | m :: ms =>
    if !m.enabled then runDetection own t ms
    else if methodFires own t m then true
    else runDetection own t ms

/-- Translation of `_is_internal_transfer`: the two exclusion checks come
first and return `False` immediately; only then does the detection-method
loop run. -/
def isInternalTransfer (cfg : ITConfig) (t : Txn) : Bool :=
  if cfg.exclusion_counterparty_names.contains t.counterparty_name then false
  else if cfg.exclusion_transaction_types.contains t.ttype then false
  else runDetection cfg.own_accounts t cfg.detection_methods

/-- Translation of `_determine_owner`: exact lookup of the transaction's
`account` in the owner map; if that fails and the account contains `'/'`,
lookup of the account's base number (the map key is used as-is); otherwise
fall back to the transaction's own `owner` field, defaulting to
`"Unknown"` when that key is absent. -/
def determineOwner (mapping : List (String × String)) (t : Txn) : String :=
  match mapping.lookup t.account with
  | some o => o
  | none =>
    if hasSlash t.account then
      match mapping.lookup (splitBase t.account) with
      | some o => o
      | none => t.owner.getD "Unknown"
    else t.owner.getD "Unknown"

/-- A rule bundle: the rules plus the owner mapping, as
`_load_rules_from_sheets` returns them. -/
structure Bundle where
  rules : List MRule := []
  owners : List (String × String) := []
deriving DecidableEq, Repr

/-- State of the local cache file as `_check_cache` observes it:
existence, age in seconds, and the parsed content (`none` when reading or
parsing fails, or when the file holds nothing truthy). -/
structure CacheState where
  present : Bool := false
  ageSeconds : Int := 0
  content : Option Bundle := none
deriving DecidableEq, Repr

/-- The `categorization` settings `_load_rules_from_sheets` reads. -/
structure StoreConfig where
  cache_enabled : Bool := true
  cache_ttl_hours : Int := 24
  reload_rules : Bool := false
deriving DecidableEq, Repr

/-- Translation of `_check_cache`: `None` when the file is missing, older
than the TTL, or unreadable; the parsed bundle otherwise. -/
def checkCache (c : CacheState) (ttlHours : Int) : Option Bundle :=
  if !c.present then none
  else if c.ageSeconds > ttlHours * 3600 then none
  else c.content

/-- Translation of `_load_rules_from_sheets`.  `fetch` is the outcome of
the Google-Sheets fetch: `Except.error` when it raises (the broad
`except Exception` branch) and `Except.ok` with the parsed bundle
otherwise (authentication failure and an empty sheet return an empty
bundle through the same non-raising path, so they appear as
`.ok` of an empty bundle).  The cache is consulted only before the fetch,
and only when caching is enabled, no forced reload is requested, and
`_check_cache` accepts the file; a failed fetch returns the empty bundle.
The function is total: no path raises to the caller. -/
def loadRulesFromSheets (cfg : StoreConfig) (cache : CacheState)
    (fetch : Except Unit Bundle) : Bundle :=
  if cfg.cache_enabled && !cfg.reload_rules then
    match checkCache cache cfg.cache_ttl_hours with
    | some d => d
    | none =>
      match fetch with
      | .ok b => b
      | .error _ => {}
  else
    match fetch with
    | .ok b => b
    | .error _ => {}

/-- The `ai_fallback` config section, including the rate-limit and retry
settings `_wait_for_rate_limit` and `_call_gemini_api` read, and whether
the API-key environment variable is set (read by `_init_gemini_client`). -/
structure AiConfig where
  enabled : Bool := false
  confidence_threshold : Int := 75
  api_key_present : Bool := false
  requests_per_minute : Nat := 10
  requests_per_day : Nat := 1000
  max_retries : Nat := 3
  retry_base_delay : Int := 2
deriving DecidableEq, Repr

/-- Rate-limit state on the categorizer instance: the deque of API-call
timestamps, the daily counter, and the daily reset time. -/
structure RateState where
  timestamps : List Int := []
  dailyCalls : Nat := 0
  resetTime : Option Int := none
deriving DecidableEq, Repr

/-- Result of `_wait_for_rate_limit`: whether it raised, the mutated
state, and the clock after any sleep. -/
structure WaitOut where
  raised : Bool
  state : RateState
  now : Int
deriving DecidableEq, Repr

/-- First step of `_wait_for_rate_limit`: reset the daily counter when the
reset time is unset or has elapsed (`current_time >= self._daily_reset_time`). -/
def resetDaily (s : RateState) (now : Int) : RateState :=
  if (match s.resetTime with
      | none => true
      | some rt => decide (rt ≤ now)) then
    { s with dailyCalls := 0, resetTime := some (now + 86400) }
  else s

/-- Per-minute part of `_wait_for_rate_limit`, run on the state the daily
reset left behind once the daily quota check has passed: evict timestamps
older than one minute, sleep until the oldest call leaves the window when
the window is full, then record the call.  The `[]` case is the
`IndexError` the source hits on an empty deque when `requests_per_minute`
is zero — an exception the caller's broad `except` treats like any
other. -/
def waitMinute (cfg : AiConfig) (s1 : RateState) (now : Int) : WaitOut :=
  let ts := s1.timestamps.dropWhile (fun x => decide (x < now - 60))
  if cfg.requests_per_minute ≤ ts.length then
    match ts with
    | [] => ⟨true, { s1 with timestamps := ts }, now⟩
    | oldest :: _ =>
      let wait := 60 - (now - oldest)
      if 0 < wait then
        let now2 := now + wait
        let ts2 := ts.dropWhile (fun x => decide (x < now2 - 60))
        ⟨false, { s1 with timestamps := ts2 ++ [now2], dailyCalls := s1.dailyCalls + 1 }, now2⟩
      else
        ⟨false, { s1 with timestamps := ts ++ [now], dailyCalls := s1.dailyCalls + 1 }, now⟩
  else
    ⟨false, { s1 with timestamps := ts ++ [now], dailyCalls := s1.dailyCalls + 1 }, now⟩

/-- Translation of `_wait_for_rate_limit`: daily reset, daily quota check
(raising the daily-limit `Exception` when the counter has reached
`requests_per_day`), then the per-minute window.  `time.sleep(w)` is
modelled as advancing the clock by exactly `w`. -/
def waitForRateLimit (cfg : AiConfig) (s : RateState) (now : Int) : WaitOut :=
  if cfg.requests_per_day ≤ (resetDaily s now).dailyCalls then
    ⟨true, resetDaily s now, now⟩
  else waitMinute cfg (resetDaily s now) now

/-- Outcome of one HTTP request to the Gemini endpoint, as the retry loop
observes it: a 2xx body, an `HTTPError` with a status code, or any other
exception (connection error, timeout, malformed JSON body). -/
inductive HttpOut where
  | ok (text : String)
  | status (code : Nat)
  | exc
deriving Repr

/-- Trace of one `_call_gemini_api` invocation: its result (`Except.error`
when it raises to `_apply_ai_categorization`), the rate state and clock it
leaves behind, how many HTTP requests were actually issued, the backoff
sleeps performed, and how many loop iterations ran. -/
structure CallOut where
  result : Except Unit String
  state : RateState
  now : Int
  httpCalls : Nat
  sleeps : List Int
  attempts : Nat
deriving Repr

/-- The backoff delays `base * 2^attempt` for `r` consecutive retry waits
starting at attempt index `a`. -/
def backoffList (base : Int) (a r : Nat) : List Int :=
  match r with
  | 0 => []
  | k + 1 => base * 2 ^ a :: backoffList base (a + 1) k

/-- The retry loop of `_call_gemini_api`: `a` is the current attempt
index, `r` the number of loop iterations left (`max_retries - a`).  Each
iteration first runs `_wait_for_rate_limit` inside the `try`, so an
exception it raises is caught by the broad `except Exception` handler,
which sleeps `base * 2^attempt` and retries while attempts remain.  A 429
`HTTPError` backs off the same way; any other `HTTPError` re-raises
immediately.  `http` maps the index of an issued HTTP request to its
outcome. -/
def callGeminiLoop (cfg : AiConfig) (http : Nat → HttpOut) :
    Nat → Nat → RateState → Int → Nat → List Int → CallOut
  | a, 0, s, now, hc, sl =>
    -- the for-loop exhausted: raise "API call failed after all retries"
    ⟨.error (), s, now, hc, sl, a⟩
  | a, r + 1, s, now, hc, sl =>
    match waitForRateLimit cfg s now with
    | ⟨true, s1, now1⟩ =>
      -- generic exception caught: back off and retry while attempts remain
      -- (`r = 0` is the source's `attempt == max_retries - 1`)
      match r with
      | 0 => ⟨.error (), s1, now1, hc, sl, a + 1⟩
      | _ + 1 =>
        callGeminiLoop cfg http (a + 1) r s1 (now1 + cfg.retry_base_delay * 2 ^ a) hc
          (sl ++ [cfg.retry_base_delay * 2 ^ a])
    | ⟨false, s1, now1⟩ =>
      match http hc with
      | .ok text => ⟨.ok text, s1, now1, hc + 1, sl, a + 1⟩
      | .status code =>
        if code == 429 then
          match r with
          | 0 => ⟨.error (), s1, now1, hc + 1, sl, a + 1⟩
          | _ + 1 =>
            callGeminiLoop cfg http (a + 1) r s1 (now1 + cfg.retry_base_delay * 2 ^ a) (hc + 1)
              (sl ++ [cfg.retry_base_delay * 2 ^ a])
        else
          -- other HTTP error: re-raise without retry
          ⟨.error (), s1, now1, hc + 1, sl, a + 1⟩
      | .exc =>
        match r with
        | 0 => ⟨.error (), s1, now1, hc + 1, sl, a + 1⟩
        | _ + 1 =>
          callGeminiLoop cfg http (a + 1) r s1 (now1 + cfg.retry_base_delay * 2 ^ a) (hc + 1)
            (sl ++ [cfg.retry_base_delay * 2 ^ a])

/-- Translation of `_call_gemini_api`, starting the retry loop at attempt
0 with `max_retries` iterations to run and `hc` HTTP requests issued so
far in the process. -/
def callGeminiApi (cfg : AiConfig) (http : Nat → HttpOut) (s : RateState)
    (now : Int) (hc : Nat) : CallOut :=
  callGeminiLoop cfg http 0 cfg.max_retries s now hc []

/-- Python `payload.replace('%', '')`: drop every percent sign. -/
def dropPercents (l : List Char) : List Char := l.filter (fun c => !(c == '%'))

/-- Accumulator of `_parse_ai_response`'s line loop: the three tier values
seen so far (initialized `None`) and the confidence (initialized 0). -/
structure AiParseAcc where
  tier1 : Option String := none
  tier2 : Option String := none
  tier3 : Option String := none
  confidence : Int := 0
deriving DecidableEq, Repr

/-- One iteration of `_parse_ai_response`'s loop: strip the line, dispatch
on its label.  A `Confidence:` payload that `int()` rejects sets the
confidence to 0 (the `except ValueError` branch). -/
def parseAiLine (acc : AiParseAcc) (line : List Char) : AiParseAcc :=
  if "Tier1:".data.isPrefixOf (trimChars line) then
    { acc with tier1 := some (pyStrip ⟨afterFirstColon (trimChars line)⟩) }
  else if "Tier2:".data.isPrefixOf (trimChars line) then
    { acc with tier2 := some (pyStrip ⟨afterFirstColon (trimChars line)⟩) }
  else if "Tier3:".data.isPrefixOf (trimChars line) then
    { acc with tier3 := some (pyStrip ⟨afterFirstColon (trimChars line)⟩) }
  else if "Confidence:".data.isPrefixOf (trimChars line) then
    { acc with confidence :=
        (pyInt (dropPercents (trimChars (afterFirstColon (trimChars line))))).getD 0 }
  else acc

/-- Translation of `_parse_ai_response`: fold the line loop over
`response.split('\n')`, then require all three tiers truthy (present and
non-empty); otherwise the source raises `ValueError`, which the caller's
broad `except` turns into no result — modelled as `none` here. -/
def parseAiResponse (response : String) : Option (String × String × String × Int) :=
  match (splitOnChar '\n' response.data).foldl parseAiLine {} with
  | { tier1 := some a, tier2 := some b, tier3 := some c, confidence := conf } =>
    if a ≠ "" ∧ b ≠ "" ∧ c ≠ "" then some (a, b, c, conf) else none
  | _ => none

/-- Does this response line carry a `Confidence:` label whose payload
`int()` accepts?  (Lines are examined after stripping, as in the source.) -/
def confLineParses (line : List Char) : Bool :=
  "Confidence:".data.isPrefixOf (trimChars line)
    && (pyInt (dropPercents (trimChars (afterFirstColon (trimChars line))))).isSome

/-- The confidence gate of `_apply_ai_categorization`: a parsed result is
discarded exactly when its confidence is below the configured threshold. -/
def aiAccept (threshold : Int) (p : String × String × String × Int) :
    Option (String × String × String × Int) :=
  if p.2.2.2 < threshold then none else some p

/-- The engine configuration `categorize` closes over: the transfer
config, the loaded (already sorted) manual rules, the owner mapping and
the AI config. -/
structure Engine where
  it : ITConfig := {}
  manual_rules : List MRule := []
  owner_mapping : List (String × String) := []
  aiConf : AiConfig := {}

/-- Mutable instance state threaded through `categorize`: the rate-limit
state, whether the Gemini client has been initialized, the mutable
`ai_enabled` flag (cleared by `_init_gemini_client` when the API key is
absent), the process clock, and the count of HTTP requests issued. -/
structure EngState where
  rate : RateState := {}
  geminiInited : Bool := false
  aiEnabled : Bool := false
  now : Int := 0
  httpCalls : Nat := 0
deriving DecidableEq, Repr

/-- Translation of `_apply_ai_categorization` (with `_init_gemini_client`
inlined as its first step): lazily initialize the client, flipping
`ai_enabled` off and returning no result when the API key is absent;
otherwise build the prompt, call the API through the rate limiter, parse
the response and apply the confidence gate.  Any exception inside
(`_call_gemini_api` failure or an unparseable response) is caught by the
outer `except` and becomes `none`; state changes made before the
exception are kept.  The optional append-only result cache is a
file-system effect outside the model. -/
def applyAiCategorization (eng : Engine) (env : Env) (http : Nat → String → HttpOut)
    (st : EngState) (t : Txn) : Option (String × String × String × Int) × EngState :=
  let st1 :=
    if !st.geminiInited then
      if eng.aiConf.api_key_present then { st with geminiInited := true }
      else { st with aiEnabled := false }
    else st
  if !st1.geminiInited then (none, st1)
  else
    let prompt := env.renderPrompt t
    let tr := callGeminiApi eng.aiConf (fun i => http i prompt) st1.rate st1.now st1.httpCalls
    let st2 := { st1 with rate := tr.state, now := tr.now, httpCalls := tr.httpCalls }
    match tr.result with
    | .error _ => (none, st2)
    | .ok text =>
      match parseAiResponse text with
      | none => (none, st2)
      | some p => (aiAccept eng.aiConf.confidence_threshold p, st2)

/-- The categorization result tuple `(tier1, tier2, tier3, owner,
is_internal_transfer, categorization_source, ai_confidence)`.  The tier
components are `Option` because a YAML rule's `category.get('tierN')` can
yield `None`. -/
structure CatResult where
  tier1 : Option String
  tier2 : Option String
  tier3 : Option String
  owner : String
  isInternal : Bool
  source : String
  confidence : Option Int
deriving DecidableEq, Repr

/-- Translation of `categorize`: internal-transfer check, then manual
rules, then the AI fallback (guarded by the mutable `ai_enabled` flag),
then the uncategorized default.  The result carries the possibly-updated
instance state and the input transaction as the callee leaves it (the
source never writes to it, so every branch returns `t`).  An exception
escaping the manual-rule path (`_rule_matches` can raise `ValueError`)
propagates to the caller as `Except.error`. -/
def categorize (eng : Engine) (env : Env) (http : Nat → String → HttpOut)
    (st : EngState) (t : Txn) : Except Unit CatResult × EngState × Txn :=
  if isInternalTransfer eng.it t then
    (.ok { tier1 := some eng.it.cat_tier1, tier2 := some eng.it.cat_tier2,
           tier3 := some eng.it.cat_tier3,
           owner := determineOwner eng.owner_mapping t,
           isInternal := true, source := "internal_transfer", confidence := none },
     st, t)
  else
    match applyManualRules env eng.manual_rules t with
    | .error e => (.error e, st, t)
    | .ok (some (t1, t2, t3, ownerFromRule)) =>
      let owner := if ownerFromRule == "" then determineOwner eng.owner_mapping t
                   else ownerFromRule
      (.ok { tier1 := t1, tier2 := t2, tier3 := t3, owner := owner,
             isInternal := false, source := "manual_rule", confidence := none },
       st, t)
    | .ok none =>
      if st.aiEnabled then
        match applyAiCategorization eng env http st t with
        | (some (a, b, c, conf), st') =>
          (.ok { tier1 := some a, tier2 := some b, tier3 := some c,
                 owner := determineOwner eng.owner_mapping t,
                 isInternal := false, source := "ai", confidence := some conf },
           st', t)
        | (none, st') =>
          (.ok { tier1 := some "Uncategorized", tier2 := some "Needs Review",
                 tier3 := some "Unknown Transaction",
                 owner := determineOwner eng.owner_mapping t,
                 isInternal := false, source := "uncategorized", confidence := none },
           st', t)
      else
        (.ok { tier1 := some "Uncategorized", tier2 := some "Needs Review",
               tier3 := some "Unknown Transaction",
               owner := determineOwner eng.owner_mapping t,
               isInternal := false, source := "uncategorized", confidence := none },
         st, t)

/-- Boolean check that evaluating a rule's conditions raises no exception
(used to state error-freeness hypotheses decidably). -/
def ruleEvalOk (env : Env) (t : Txn) (r : MRule) : Bool :=
  match ruleMatches env r t with
  | .error _ => false
  | .ok _ => true

/-- An environment whose external interpreters are inert; concrete
witnesses use it (none of them reaches the regex or prompt paths). -/
def envNone : Env :=
  { regexSearch := fun _ _ => false, renderPrompt := fun _ => "" }

/-- Concrete transaction for matcher witnesses. -/
def exTxn : Txn := { description := "ALBERT SUPERMARKET PRAHA" }

/-- Concrete low-priority Sheets rule matching `exTxn` by substring. -/
def exRuleLow : MRule :=
  .sheets { priority := 1, description_contains := "ALBERT",
            tier1 := "Living Expenses", tier2 := "Groceries", tier3 := "Supermarket" }

/-- Concrete high-priority Sheets rule matching every transaction. -/
def exRuleHigh : MRule :=
  .sheets { priority := 2, tier1 := "Override", tier2 := "All", tier3 := "All" }

/-- Concrete AI config for the daily-quota scenario: a quota of one call
per day, three retry attempts, base delay two seconds. -/
def cfgQuota : AiConfig :=
  { enabled := true, api_key_present := true, requests_per_day := 1,
    max_retries := 3, retry_base_delay := 2 }

/-- Concrete rate state with the daily quota of `cfgQuota` already
consumed and a reset time far in the future. -/
def stQuota : RateState :=
  { timestamps := [], dailyCalls := 1, resetTime := some 1000000 }

end Categorizer

namespace Categorizer

/-! ## Claim C2: exclusion lists veto internal-transfer detection -/

/-- C2: for every configuration and transaction whose counterparty name is
in the counterparty-name exclusion list, or whose transaction-type label is
in the transaction-type exclusion list, `_is_internal_transfer` returns
`False` — before and regardless of every detection method (own-account
match included). -/
theorem internal_transfer_exclusion_veto (cfg : ITConfig) (t : Txn)
    (h : cfg.exclusion_counterparty_names.contains t.counterparty_name = true ∨
         cfg.exclusion_transaction_types.contains t.ttype = true) :
    isInternalTransfer cfg t = false := by
  unfold isInternalTransfer
  rcases h with h | h
  · rw [if_pos h]
  · by_cases hc : cfg.exclusion_counterparty_names.contains t.counterparty_name = true
    · rw [if_pos hc]
    · rw [if_neg hc, if_pos h]

/-- Witness for C2: the counterparty account is a configured own account
and own-account detection is enabled, yet the excluded counterparty name
forces `false`. -/
theorem internal_transfer_exclusion_veto_witness :
    (ITConfig.exclusion_counterparty_names
        { own_accounts := ["123/0100"],
          exclusion_counterparty_names := ["Wise Cashback"],
          detection_methods := [({ mtype := "counterparty_in_own_accounts" } : DetectionMethod)] }).contains
        "Wise Cashback" = true ∧
    isInternalTransfer
        { own_accounts := ["123/0100"],
          exclusion_counterparty_names := ["Wise Cashback"],
          detection_methods := [({ mtype := "counterparty_in_own_accounts" } : DetectionMethod)] }
        { counterparty_account := "123/0100", counterparty_name := "Wise Cashback" } = false :=
  ⟨by decide,
   internal_transfer_exclusion_veto
     { own_accounts := ["123/0100"],
       exclusion_counterparty_names := ["Wise Cashback"],
       detection_methods := [({ mtype := "counterparty_in_own_accounts" } : DetectionMethod)] }
     { counterparty_account := "123/0100", counterparty_name := "Wise Cashback" }
     (Or.inl (by decide))⟩

/-! ## Claim C5: the AI confidence gate is exactly `confidence ≥ threshold` -/

/-- C5: a parsed AI classification is accepted (passed through the
confidence gate of `_apply_ai_categorization`) exactly when its confidence
is at least the configured threshold, and discarded exactly when it is
below it; in particular confidence `t` is accepted and `t - 1` is
discarded. -/
theorem ai_confidence_threshold_gate (th : Int) (p : String × String × String × Int) :
    (aiAccept th p = some p ↔ th ≤ p.2.2.2) ∧
    (aiAccept th p = none ↔ p.2.2.2 < th) := by
  unfold aiAccept
  by_cases h : p.2.2.2 < th
  all_goals simp [h]
  all_goals omega

/-! ## Claim C6: owner resolution strips the suffix on one side only -/

/-- C6 counterexample: the transaction's account and the owner-map key
share the base number `123` but differ in routing suffix.  Own-account
detection would match them (both sides stripped), but `_determine_owner`
only strips the transaction side and looks the base up as an exact key, so
it falls through to `"Unknown"` instead of returning `"Alice"`. -/
theorem resolve_owner_not_suffix_tolerant_both_sides :
    splitBase "123/0100" = splitBase "123/0300" ∧
    determineOwner [("123/0300", "Alice")] { account := "123/0100" } = "Unknown" ∧
    determineOwner [("123/0300", "Alice")] { account := "123/0100" } ≠ "Alice" :=
  ⟨rfl, rfl, by decide⟩

/-- C6 amended: `_determine_owner` looks the account up exactly; when that
fails and the account contains `'/'` it looks up the account's base number,
again as an exact key (the map keys are never stripped); when no entry
matches it returns the owner carried on the transaction, defaulting to
`"Unknown"` when that field is absent. -/
theorem resolve_owner_amended (m : List (String × String)) (t : Txn) :
    (∀ o, m.lookup t.account = some o → determineOwner m t = o) ∧
    (m.lookup t.account = none → hasSlash t.account = true →
      determineOwner m t = (m.lookup (splitBase t.account)).getD (t.owner.getD "Unknown")) ∧
    (m.lookup t.account = none → hasSlash t.account = false →
      determineOwner m t = t.owner.getD "Unknown") := by
  unfold determineOwner
  refine ⟨?_, ?_, ?_⟩
  · intro o ho
    rw [ho]
  · intro hmiss hslash
    rw [hmiss, hslash]
    cases hb : m.lookup (splitBase t.account)
    all_goals simp [hb]
  · intro hmiss hslash
    rw [hmiss, hslash]
    simp

/-- Witness for C6's amended theorem at concrete inputs: a slash-free
account absent from the map falls back to the record's owner default. -/
theorem resolve_owner_amended_witness :
    List.lookup "555" ([("777", "Bob")] : List (String × String)) = none ∧
    hasSlash "555" = false ∧
    determineOwner [("777", "Bob")] { account := "555" } = "Unknown" :=
  ⟨by decide, by decide,
   (resolve_owner_amended [("777", "Bob")] { account := "555" }).2.2 (by decide) (by decide)⟩

/-! ## Claim C7: rules with no conditions -/

/-- C7 counterexample: a YAML-format rule with no match conditions (no
`match` dictionary) does **not** match — `_rule_matches` falls through to
`return False` — while a Sheets-format rule with all condition fields
blank matches everything.  The claim's "in both rule representations the
matcher accepts" fails on the YAML representation. -/
theorem yaml_rule_without_conditions_never_matches :
    ruleMatches envNone (MRule.yaml 5 none { tier1 := some "X" })
        { description := "anything" } = Except.ok false ∧
    sheetsRuleMatches {} { description := "anything" } = true :=
  ⟨rfl, rfl⟩

/-- C7 amended: a Sheets-format rule whose condition fields are all blank
(empty after stripping, no amount bounds) matches every transaction
unconditionally; a YAML-format rule with no match conditions never
matches (see the counterexample). -/
theorem sheets_rule_without_conditions_matches (r : SheetsRule) (t : Txn)
    (h1 : pyStrip r.description_contains = "")
    (h2 : pyStrip r.institution_exact = "")
    (h3 : pyStrip r.counterparty_account_exact = "")
    (h4 : pyStrip r.counterparty_name_contains = "")
    (h5 : pyStrip r.variable_symbol_exact = "")
    (h6 : r.amount_czk_min = none)
    (h7 : r.amount_czk_max = none) :
    sheetsRuleMatches r t = true := by
  unfold sheetsRuleMatches
  rw [h1, h2, h3, h4, h5, h6, h7]
  rfl

/-- Witness for C7's amended theorem: the all-defaults Sheets rule matches
a concrete transaction. -/
theorem sheets_rule_without_conditions_matches_witness :
    pyStrip (SheetsRule.description_contains {}) = "" ∧
    sheetsRuleMatches {} exTxn = true :=
  ⟨rfl,
   sheets_rule_without_conditions_matches {} exTxn rfl rfl rfl rfl rfl rfl rfl⟩

/-! ## Claim C3: behavior of the rule-store load when the fetch fails -/

/-- C3 counterexample: the cache file exists and holds a non-empty bundle,
but is older than the TTL; the fetch fails.  The load returns the empty
bundle — not the stale cached bundle — although a cache file exists. -/
theorem stale_cache_not_used_on_fetch_failure :
    loadRulesFromSheets {}
        { present := true, ageSeconds := 90000,
          content := some { rules := [], owners := [("9", "Olga")] } }
        (Except.error ()) = ({} : Bundle) ∧
    CacheState.present
        { present := true, ageSeconds := 90000,
          content := some { rules := [], owners := [("9", "Olga")] } } = true ∧
    ({ rules := [], owners := [("9", "Olga")] } : Bundle) ≠ ({} : Bundle) :=
  ⟨rfl, rfl, by decide⟩

/-- C3 amended: when the fetch from the rule source fails, the load never
raises and returns either the empty bundle, or — only when caching is
enabled, no forced reload was requested, and the cache file passed
`_check_cache` (present, readable, and within its TTL) — the cached
bundle.  A stale cache file is never returned. -/
theorem load_rules_fetch_failure (cfg : StoreConfig) (cache : CacheState) :
    loadRulesFromSheets cfg cache (Except.error ()) = ({} : Bundle) ∨
    (∃ b, checkCache cache cfg.cache_ttl_hours = some b ∧
          loadRulesFromSheets cfg cache (Except.error ()) = b ∧
          cache.ageSeconds ≤ cfg.cache_ttl_hours * 3600 ∧
          cfg.cache_enabled = true ∧ cfg.reload_rules = false) := by
  unfold loadRulesFromSheets
  by_cases he : (cfg.cache_enabled && !cfg.reload_rules) = true
  · rw [if_pos he]
    cases hc : checkCache cache cfg.cache_ttl_hours with
    | none => exact Or.inl rfl
    | some b =>
      refine Or.inr ⟨b, rfl, rfl, ?_, ?_, ?_⟩
      · unfold checkCache at hc
        by_cases hp : (!cache.present) = true
        · rw [if_pos hp] at hc; cases hc
        · rw [if_neg hp] at hc
          by_cases ha : (cache.ageSeconds > cfg.cache_ttl_hours * 3600)
          · rw [if_pos ha] at hc; cases hc
          · omega
      · exact (Bool.and_eq_true _ _ ▸ he).1
      · have := (Bool.and_eq_true _ _ ▸ he).2
        simpa using this
  · rw [if_neg he]
    exact Or.inl rfl

/-! ## Claim C9: `categorize` never mutates its input transaction -/

/-- C9: on every path (internal transfer, manual rule, AI, uncategorized,
and the exceptional manual-rule path), `categorize` leaves the input
transaction record exactly as it received it: the translation of the
source contains no write to the transaction, so the threaded record is
returned unchanged. -/
theorem categorize_input_not_mutated (eng : Engine) (env : Env)
    (http : Nat → String → HttpOut) (st : EngState) (t : Txn) :
    (categorize eng env http st t).2.2 = t := by
  unfold categorize
  split
  · rfl
  · split
    · rfl
    · rfl
    · split
      · split <;> rfl
      · rfl

/-! ## Claim C8: determinism of `categorize` with the AI path disabled -/

/-- Helper for C8: with `ai_enabled` false, `categorize` leaves the
instance state untouched on every path. -/
theorem categorize_state_fixed (eng : Engine) (env : Env)
    (http : Nat → String → HttpOut) (st : EngState) (t : Txn)
    (h : st.aiEnabled = false) :
    (categorize eng env http st t).2.1 = st := by
  unfold categorize
  split
  · rfl
  · split
    · rfl
    · rfl
    · rw [h]
      rfl

/-- C8: with the AI path disabled, `categorize` is deterministic and
idempotent — it does not change the instance state, and a second call on
the state the first call returns produces the identical result tuple. -/
theorem categorize_idempotent_without_ai (eng : Engine) (env : Env)
    (http : Nat → String → HttpOut) (st : EngState) (t : Txn)
    (h : st.aiEnabled = false) :
    (categorize eng env http st t).2.1 = st ∧
    (categorize eng env http ((categorize eng env http st t).2.1) t).1 =
      (categorize eng env http st t).1 := by
  have hs := categorize_state_fixed eng env http st t h
  exact ⟨hs, by rw [hs]⟩

/-- Witness for C8: a concrete engine with one rule, on the default state
(whose `aiEnabled` flag is false). -/
theorem categorize_idempotent_without_ai_witness :
    EngState.aiEnabled {} = false ∧
    ((categorize { manual_rules := [exRuleLow] } envNone (fun _ _ => HttpOut.exc) {} exTxn).2.1
        = ({} : EngState) ∧
     (categorize { manual_rules := [exRuleLow] } envNone (fun _ _ => HttpOut.exc)
         ((categorize { manual_rules := [exRuleLow] } envNone (fun _ _ => HttpOut.exc) {} exTxn).2.1)
         exTxn).1
        = (categorize { manual_rules := [exRuleLow] } envNone (fun _ _ => HttpOut.exc) {} exTxn).1) :=
  ⟨rfl,
   categorize_idempotent_without_ai { manual_rules := [exRuleLow] } envNone
     (fun _ _ => HttpOut.exc) {} exTxn rfl⟩

/-! ## Claim C10: a missing or non-integer `Confidence:` line parses as 0 -/

/-- Helper for C10: a single loop iteration of `_parse_ai_response` keeps
the confidence at 0 when the line carries no `int()`-parseable
`Confidence:` payload. -/
theorem parseAiLine_conf_zero (acc : AiParseAcc) (l : List Char)
    (hacc : acc.confidence = 0) (hb : confLineParses l = false) :
    (parseAiLine acc l).confidence = 0 := by
  unfold parseAiLine
  unfold confLineParses at hb
  by_cases h1 : "Tier1:".data.isPrefixOf (trimChars l) = true
  · rw [if_pos h1]; exact hacc
  · rw [if_neg h1]
    by_cases h2 : "Tier2:".data.isPrefixOf (trimChars l) = true
    · rw [if_pos h2]; exact hacc
    · rw [if_neg h2]
      by_cases h3 : "Tier3:".data.isPrefixOf (trimChars l) = true
      · rw [if_pos h3]; exact hacc
      · rw [if_neg h3]
        by_cases h4 : "Confidence:".data.isPrefixOf (trimChars l) = true
        · rw [if_pos h4]
          rw [h4, Bool.true_and] at hb
          have hnone : pyInt (dropPercents (trimChars (afterFirstColon (trimChars l)))) = none := by
            cases hpi : pyInt (dropPercents (trimChars (afterFirstColon (trimChars l))))
            · rfl
            · rw [hpi] at hb
              cases hb
          rw [hnone]
          rfl
        · rw [if_neg h4]; exact hacc

/-- Helper for C10: the whole line loop keeps the confidence at 0 when no
line carries an `int()`-parseable `Confidence:` payload. -/
theorem parse_fold_conf_zero (ls : List (List Char)) (acc : AiParseAcc)
    (hacc : acc.confidence = 0) (hl : ∀ l ∈ ls, confLineParses l = false) :
    (ls.foldl parseAiLine acc).confidence = 0 := by
  induction ls generalizing acc with
  | nil => exact hacc
  | cons l ls ih =>
    exact ih _ (parseAiLine_conf_zero acc l hacc (hl l (by simp)))
      (fun x hx => hl x (by simp [hx]))

/-- C10: when the three tier lines parse but no line of the response
carries a `Confidence:` label with an `int()`-parseable payload, the
parsed confidence is 0, and the confidence gate rejects the
classification for every positive threshold. -/
theorem ai_missing_confidence_zero_rejected
    (response : String) (a b c : String) (conf th : Int)
    (hp : parseAiResponse response = some (a, b, c, conf))
    (hl : ∀ l ∈ splitOnChar '\n' response.data, confLineParses l = false)
    (hth : 0 < th) :
    conf = 0 ∧ aiAccept th (a, b, c, conf) = none := by
  have h0 : ((splitOnChar '\n' response.data).foldl parseAiLine {}).confidence = 0 :=
    parse_fold_conf_zero _ _ rfl hl
  unfold parseAiResponse at hp
  rcases hfold : (splitOnChar '\n' response.data).foldl parseAiLine {} with ⟨t1, t2, t3, cf⟩
  rw [hfold] at hp h0
  cases t1 with
  | none => simp at hp
  | some a' =>
    cases t2 with
    | none => simp at hp
    | some b' =>
      cases t3 with
      | none => simp at hp
      | some c' =>
        dsimp only at hp h0
        by_cases hne : a' ≠ "" ∧ b' ≠ "" ∧ c' ≠ ""
        · rw [if_pos hne] at hp
          simp only [Option.some.injEq, Prod.mk.injEq] at hp
          obtain ⟨-, -, -, hcf⟩ := hp
          have hconf : conf = 0 := by rw [← hcf]; exact h0
          refine ⟨hconf, ?_⟩
          unfold aiAccept
          rw [if_pos (by simpa [hconf] using hth)]
        · rw [if_neg hne] at hp; cases hp

/-- Witness for C10: a response whose `Confidence:` payload is the word
`high`, which `int()` rejects; the tiers parse, the confidence is 0, and
a threshold of 75 rejects the result. -/
theorem ai_missing_confidence_zero_rejected_witness :
    parseAiResponse "Tier1: A\nTier2: B\nTier3: C\nConfidence: high"
        = some ("A", "B", "C", 0) ∧
    (∀ l ∈ splitOnChar '\n' ("Tier1: A\nTier2: B\nTier3: C\nConfidence: high").data,
        confLineParses l = false) ∧
    (0 : Int) < 75 ∧
    ((0 : Int) = 0 ∧ aiAccept 75 ("A", "B", "C", (0 : Int)) = none) :=
  ⟨by decide, by decide, by decide,
   ai_missing_confidence_zero_rejected "Tier1: A\nTier2: B\nTier3: C\nConfidence: high"
     "A" "B" "C" 0 75 (by decide) (by decide) (by decide)⟩

/-! ## Claim C4: behavior of the API call once the daily quota is reached -/

/-- Helper for C4: the daily reset leaves the state alone while the reset
time lies in the future. -/
theorem resetDaily_of_future_reset (s : RateState) (now rt : Int)
    (hrt : s.resetTime = some rt) (hle : ¬ rt ≤ now) :
    resetDaily s now = s := by
  unfold resetDaily
  rw [hrt]
  simp [hle]

/-- Helper for C4: with the daily counter at or above the quota and the
reset time in the future, `_wait_for_rate_limit` raises at once, mutating
nothing and issuing no sleep. -/
theorem waitForRateLimit_quota (cfg : AiConfig) (s : RateState) (now rt : Int)
    (hrt : s.resetTime = some rt) (hle : ¬ rt ≤ now)
    (hq : cfg.requests_per_day ≤ s.dailyCalls) :
    waitForRateLimit cfg s now = ⟨true, s, now⟩ := by
  unfold waitForRateLimit
  rw [resetDaily_of_future_reset s now rt hrt hle, if_pos hq]

/-- Helper for C4: backoff delays are nonnegative when the base delay is. -/
theorem backoffList_sum_nonneg (base : Int) (hb : 0 ≤ base) (r a : Nat) :
    0 ≤ (backoffList base a r).sum := by
  induction r generalizing a with
  | zero => simp [backoffList]
  | succ k ih =>
    have h1 : (0 : Int) ≤ base * 2 ^ a := mul_nonneg hb (pow_nonneg (by norm_num) a)
    have h2 := ih (a + 1)
    simp only [backoffList, List.sum_cons]
    linarith

/-- Helper for C4: while the daily counter is at or above the quota and the
reset time stays in the future, every iteration of the retry loop catches
the quota exception, sleeps the exponential backoff, and retries; the loop
ends by re-raising after exactly its remaining attempts, having issued no
HTTP request and left the rate state untouched. -/
theorem callGeminiLoop_quota (cfg : AiConfig) (http : Nat → HttpOut) (rt : Int)
    (hb : 0 ≤ cfg.retry_base_delay) (k : Nat) :
    ∀ (a : Nat) (s : RateState) (now : Int) (hc : Nat) (sl : List Int),
      cfg.requests_per_day ≤ s.dailyCalls →
      s.resetTime = some rt →
      now + (backoffList cfg.retry_base_delay a k).sum < rt →
      callGeminiLoop cfg http a (k + 1) s now hc sl =
        ⟨.error (), s, now + (backoffList cfg.retry_base_delay a k).sum, hc,
         sl ++ backoffList cfg.retry_base_delay a k, a + (k + 1)⟩ := by
  induction k with
  | zero =>
    intro a s now hc sl hq hrt hlt
    have hle : ¬ rt ≤ now := by
      simp only [backoffList, List.sum_nil] at hlt
      omega
    rw [callGeminiLoop]
    rw [waitForRateLimit_quota cfg s now rt hrt hle hq]
    simp [backoffList]
  | succ k ih =>
    intro a s now hc sl hq hrt hlt
    have hd : (0 : Int) ≤ cfg.retry_base_delay * 2 ^ a :=
      mul_nonneg hb (pow_nonneg (by norm_num) a)
    have hsum : 0 ≤ (backoffList cfg.retry_base_delay (a + 1) k).sum :=
      backoffList_sum_nonneg _ hb k (a + 1)
    have hcons : (backoffList cfg.retry_base_delay a (k + 1)).sum =
        cfg.retry_base_delay * 2 ^ a + (backoffList cfg.retry_base_delay (a + 1) k).sum := by
      simp [backoffList]
    have hlt' : now + cfg.retry_base_delay * 2 ^ a +
        (backoffList cfg.retry_base_delay (a + 1) k).sum < rt := by
      rw [hcons] at hlt
      linarith
    have hle : ¬ rt ≤ now := by
      have : now < rt := by linarith
      omega
    rw [callGeminiLoop]
    rw [waitForRateLimit_quota cfg s now rt hrt hle hq]
    dsimp only
    rw [ih (a + 1) s (now + cfg.retry_base_delay * 2 ^ a) hc
        (sl ++ [cfg.retry_base_delay * 2 ^ a]) hq hrt hlt']
    rw [hcons]
    simp [backoffList, List.append_assoc, add_assoc]
    omega

/-- C4 counterexample: with the daily quota already consumed, the call does
fail and issues no HTTP request, but **not** immediately: the quota
exception raised by `_wait_for_rate_limit` inside the `try` is caught by
the broad `except Exception` handler of `_call_gemini_api`'s retry loop,
which sleeps the exponential backoff (2 s, then 4 s) and re-attempts,
raising only after all three attempts — contradicting "fails immediately
without any retry or backoff sleep". -/
theorem daily_quota_retried_with_backoff :
    callGeminiApi cfgQuota (fun _ => HttpOut.exc) stQuota 0 0 =
      ⟨.error (), stQuota, 6, 0, [2, 4], 3⟩ ∧
    ([2, 4] : List Int) ≠ [] ∧ (3 : Nat) ≠ 1 :=
  ⟨rfl, by decide, by decide⟩

/-- C4 amended: once the daily counter has reached `requests_per_day` (and
the daily reset time lies beyond the retry window), every subsequent
classification call fails — no HTTP request is ever issued and the rate
state is unchanged — but not immediately: the retry controller catches the
quota error like any other non-HTTP exception and re-attempts it, sleeping
the exponential backoffs `base·2^i` between attempts, and surfaces the
failure only after `max_retries` attempts. -/
theorem daily_quota_blocks_api_with_backoff_retries (cfg : AiConfig)
    (http : Nat → HttpOut) (s : RateState) (now rt : Int) (hc : Nat)
    (hq : cfg.requests_per_day ≤ s.dailyCalls)
    (hrt : s.resetTime = some rt)
    (hb : 0 ≤ cfg.retry_base_delay)
    (hm : 1 ≤ cfg.max_retries)
    (hlt : now + (backoffList cfg.retry_base_delay 0 (cfg.max_retries - 1)).sum < rt) :
    callGeminiApi cfg http s now hc =
      ⟨.error (), s,
       now + (backoffList cfg.retry_base_delay 0 (cfg.max_retries - 1)).sum,
       hc, backoffList cfg.retry_base_delay 0 (cfg.max_retries - 1),
       cfg.max_retries⟩ := by
  unfold callGeminiApi
  obtain ⟨k, hk⟩ : ∃ k, cfg.max_retries = k + 1 := ⟨cfg.max_retries - 1, by omega⟩
  have hk1 : cfg.max_retries - 1 = k := by omega
  rw [hk1] at hlt ⊢
  rw [hk]
  have := callGeminiLoop_quota cfg http rt hb k 0 s now hc [] hq hrt hlt
  simpa using this

/-- Witness for C4's amended theorem: the daily-quota scenario at concrete
values (quota 1 reached, three retries, base delay 2, reset far away). -/
theorem daily_quota_blocks_api_witness :
    cfgQuota.requests_per_day ≤ stQuota.dailyCalls ∧
    stQuota.resetTime = some 1000000 ∧
    (0 : Int) ≤ cfgQuota.retry_base_delay ∧
    1 ≤ cfgQuota.max_retries ∧
    (0 : Int) + (backoffList cfgQuota.retry_base_delay 0 (cfgQuota.max_retries - 1)).sum
      < 1000000 ∧
    callGeminiApi cfgQuota (fun _ => HttpOut.exc) stQuota 0 0 =
      ⟨.error (), stQuota,
       0 + (backoffList cfgQuota.retry_base_delay 0 (cfgQuota.max_retries - 1)).sum,
       0, backoffList cfgQuota.retry_base_delay 0 (cfgQuota.max_retries - 1),
       cfgQuota.max_retries⟩ :=
  ⟨by decide, rfl, by decide, by decide, by decide,
   daily_quota_blocks_api_with_backoff_retries cfgQuota (fun _ => HttpOut.exc) stQuota 0
     1000000 0 (by decide) rfl (by decide) (by decide) (by decide)⟩

/-! ## Claim C1: the matcher selects by priority descending, source-order
stable — machinery relating the stable sort plus first-match loop to the
spec's selection rule. -/

/-- Unfolding step of `findMatch` on a cons cell. -/
theorem findMatch_cons (p : MRule → Bool) (y : MRule) (ys : List MRule) :
    findMatch p (y :: ys) = if p y then some y else findMatch p ys := rfl

/-- Unfolding step of `insertByPriority` on a cons cell. -/
theorem insertByPriority_cons (r y : MRule) (ys : List MRule) :
    insertByPriority r (y :: ys) =
      if y.priority ≤ r.priority then r :: y :: ys
      else y :: insertByPriority r ys := rfl

/-- Unfolding step of `specBestMatch` on a cons cell. -/
theorem specBestMatch_cons (p : MRule → Bool) (y : MRule) (ys : List MRule) :
    specBestMatch p (y :: ys) =
      if p y then
        match specBestMatch p ys with
        | some b => if y.priority < b.priority then some b else some y
        | none => some y
      else specBestMatch p ys := rfl

/-- Membership is preserved by the insertion step. -/
theorem mem_insertByPriority (r x : MRule) (l : List MRule) :
    x ∈ insertByPriority r l ↔ x = r ∨ x ∈ l := by
  induction l with
  | nil => simp [insertByPriority]
  | cons y ys ih =>
    rw [insertByPriority_cons]
    by_cases h : y.priority ≤ r.priority
    · rw [if_pos h]
      simp [List.mem_cons]
    · rw [if_neg h]
      simp only [List.mem_cons, ih]
      tauto

/-- The sort permutes: membership is preserved. -/
theorem mem_sortRulesByPriority (x : MRule) (l : List MRule) :
    x ∈ sortRulesByPriority l ↔ x ∈ l := by
  induction l with
  | nil => simp [sortRulesByPriority]
  | cons y ys ih =>
    show x ∈ insertByPriority y (sortRulesByPriority ys) ↔ _
    rw [mem_insertByPriority, ih]
    simp [List.mem_cons]

/-- The insertion step preserves priority-descending sortedness. -/
theorem insertByPriority_sorted (r : MRule) (l : List MRule)
    (h : List.Pairwise (fun p q => q.priority ≤ p.priority) l) :
    List.Pairwise (fun p q => q.priority ≤ p.priority) (insertByPriority r l) := by
  induction l with
  | nil => simp [insertByPriority]
  | cons y ys ih =>
    rcases List.pairwise_cons.mp h with ⟨hy, hys⟩
    rw [insertByPriority_cons]
    by_cases hp : y.priority ≤ r.priority
    · rw [if_pos hp]
      refine List.pairwise_cons.mpr ⟨?_, h⟩
      intro z hz
      rcases List.mem_cons.mp hz with rfl | hz
      · exact hp
      · exact le_trans (hy z hz) hp
    · rw [if_neg hp]
      refine List.pairwise_cons.mpr ⟨?_, ih hys⟩
      intro z hz
      rcases (mem_insertByPriority r z ys).mp hz with rfl | hz
      · omega
      · exact hy z hz

/-- The loaded rule list is sorted by priority descending. -/
theorem sortRulesByPriority_sorted (l : List MRule) :
    List.Pairwise (fun p q => q.priority ≤ p.priority) (sortRulesByPriority l) := by
  induction l with
  | nil => exact List.Pairwise.nil
  | cons y ys ih => exact insertByPriority_sorted y _ ih

/-- A found element belongs to the list. -/
theorem findMatch_mem (p : MRule → Bool) (l : List MRule) (b : MRule)
    (h : findMatch p l = some b) : b ∈ l := by
  induction l with
  | nil => cases h
  | cons y ys ih =>
    rw [findMatch_cons] at h
    by_cases hy : p y = true
    · rw [if_pos hy] at h
      injection h with h
      simp [h]
    · rw [if_neg hy] at h
      simp [ih h]

/-- When no rule's evaluation raises, the matcher loop is the boolean
first-match. -/
theorem firstRuleMatch_eq_findMatch (env : Env) (t : Txn) (l : List MRule)
    (herr : ∀ x ∈ l, ruleEvalOk env t x = true) :
    firstRuleMatch env t l = .ok (findMatch (matchesOk env t) l) := by
  induction l with
  | nil => rfl
  | cons r rs ih =>
    have hr := herr r (by simp)
    unfold ruleEvalOk at hr
    show (match ruleMatches env r t with
          | Except.error e => Except.error e
          | Except.ok true => Except.ok (some r)
          | Except.ok false => firstRuleMatch env t rs) = _
    rw [findMatch_cons]
    cases hm : ruleMatches env r t with
    | error e =>
      rw [hm] at hr
      cases hr
    | ok b =>
      have hmOk : matchesOk env t r = b := by
        unfold matchesOk
        rw [hm]
        cases b <;> rfl
      cases b with
      | true =>
        rw [hmOk, if_pos rfl]
      | false =>
        rw [hmOk, if_neg (by simp)]
        exact ih (fun x hx => herr x (by simp [hx]))

/-- First-match through the insertion step of the sort: the inserted rule
(earlier in source order than the list) wins against any found rule of no
higher priority, and loses to a strictly higher one. -/
theorem findMatch_insertByPriority (p : MRule → Bool) (r : MRule) (l : List MRule)
    (hs : List.Pairwise (fun a b => b.priority ≤ a.priority) l) :
    findMatch p (insertByPriority r l) =
      if p r then
        match findMatch p l with
        | some b => if r.priority < b.priority then some b else some r
        | none => some r
      else findMatch p l := by
  induction l with
  | nil =>
    show findMatch p [r] = _
    rw [findMatch_cons]
    by_cases hr : p r = true
    · rw [if_pos hr, if_pos hr]
      rfl
    · rw [if_neg hr, if_neg hr]
  | cons y ys ih =>
    rcases List.pairwise_cons.mp hs with ⟨hy, hys⟩
    rw [insertByPriority_cons]
    by_cases hins : y.priority ≤ r.priority
    · rw [if_pos hins, findMatch_cons]
      by_cases hr : p r = true
      · rw [if_pos hr, if_pos hr]
        cases hf : findMatch p (y :: ys) with
        | none => rfl
        | some b =>
          have hb : b ∈ y :: ys := findMatch_mem p _ b hf
          have hble : b.priority ≤ y.priority := by
            rcases List.mem_cons.mp hb with rfl | hb
            · exact le_refl _
            · exact hy b hb
          dsimp only
          rw [if_neg (by omega : ¬ r.priority < b.priority)]
      · rw [if_neg hr, if_neg hr]
    · rw [if_neg hins, findMatch_cons]
      by_cases hpy : p y = true
      · rw [if_pos hpy]
        have hfy : findMatch p (y :: ys) = some y := by
          rw [findMatch_cons, if_pos hpy]
        by_cases hr : p r = true
        · rw [if_pos hr, hfy]
          dsimp only
          rw [if_pos (by omega : r.priority < y.priority)]
        · rw [if_neg hr, hfy]
      · rw [if_neg hpy, ih hys]
        have hfy : findMatch p (y :: ys) = findMatch p ys := by
          rw [findMatch_cons, if_neg hpy]
        rw [hfy]

/-- First-match over the sorted list computes the spec's selection rule on
the source-order list. -/
theorem findMatch_sort_eq_specBestMatch (p : MRule → Bool) (l : List MRule) :
    findMatch p (sortRulesByPriority l) = specBestMatch p l := by
  induction l with
  | nil => rfl
  | cons y ys ih =>
    show findMatch p (insertByPriority y (sortRulesByPriority ys)) = _
    rw [findMatch_insertByPriority p y _ (sortRulesByPriority_sorted ys), ih,
        specBestMatch_cons]

/-- A selected rule belongs to the list and matches. -/
theorem specBestMatch_mem (p : MRule → Bool) (l : List MRule) (b : MRule)
    (h : specBestMatch p l = some b) : b ∈ l ∧ p b = true := by
  induction l with
  | nil => cases h
  | cons y ys ih =>
    rw [specBestMatch_cons] at h
    by_cases hy : p y = true
    · rw [if_pos hy] at h
      cases hbest : specBestMatch p ys with
      | none =>
        rw [hbest] at h; dsimp only at h
        injection h with h
        subst h
        exact ⟨by simp, hy⟩
      | some b' =>
        rw [hbest] at h; dsimp only at h
        by_cases hlt : y.priority < b'.priority
        · rw [if_pos hlt] at h
          injection h with h
          subst h
          exact ⟨by simp [(ih hbest).1], (ih hbest).2⟩
        · rw [if_neg hlt] at h
          injection h with h
          subst h
          exact ⟨by simp, hy⟩
    · rw [if_neg hy] at h
      exact ⟨by simp [(ih h).1], (ih h).2⟩

/-- A `none` selection means no rule matches. -/
theorem specBestMatch_eq_none (p : MRule → Bool) (l : List MRule)
    (h : specBestMatch p l = none) : ∀ x ∈ l, p x = false := by
  induction l with
  | nil => simp
  | cons y ys ih =>
    rw [specBestMatch_cons] at h
    by_cases hy : p y = true
    · rw [if_pos hy] at h
      exfalso
      cases hbest : specBestMatch p ys with
      | none => rw [hbest] at h; dsimp only at h; cases h
      | some b' =>
        rw [hbest] at h; dsimp only at h
        by_cases hlt : y.priority < b'.priority
        · rw [if_pos hlt] at h; cases h
        · rw [if_neg hlt] at h; cases h
    · rw [if_neg hy] at h
      intro x hx
      rcases List.mem_cons.mp hx with rfl | hx
      · cases hpy : p x
        · rfl
        · exact absurd hpy hy
      · exact ih h x hx

/-- The selected rule's priority bounds every matching rule's priority. -/
theorem specBestMatch_max (p : MRule → Bool) (l : List MRule) (b : MRule)
    (h : specBestMatch p l = some b) :
    ∀ x ∈ l, p x = true → x.priority ≤ b.priority := by
  induction l generalizing b with
  | nil => simp
  | cons y ys ih =>
    rw [specBestMatch_cons] at h
    intro x hx hpx
    by_cases hy : p y = true
    · rw [if_pos hy] at h
      cases hbest : specBestMatch p ys with
      | none =>
        rw [hbest] at h; dsimp only at h
        injection h with h
        subst h
        rcases List.mem_cons.mp hx with rfl | hx
        · exact le_refl _
        · exact absurd hpx (by simp [specBestMatch_eq_none p ys hbest x hx])
      | some b' =>
        rw [hbest] at h; dsimp only at h
        by_cases hlt : y.priority < b'.priority
        · rw [if_pos hlt] at h
          injection h with h
          subst h
          rcases List.mem_cons.mp hx with rfl | hx
          · omega
          · exact ih b' hbest x hx hpx
        · rw [if_neg hlt] at h
          injection h with h
          subst h
          rcases List.mem_cons.mp hx with rfl | hx
          · exact le_refl _
          · have := ih b' hbest x hx hpx
            omega
    · rw [if_neg hy] at h
      rcases List.mem_cons.mp hx with rfl | hx
      · exact absurd hpx hy
      · exact ih b h x hx hpx

/-- Full characterization of the spec's selection rule: `r` is selected
exactly when the source-order list splits as `l₁ ++ r :: l₂` with `r`
matching, every matching rule before it of strictly lower priority, and
every matching rule after it of no higher priority. -/
theorem specBestMatch_eq_some_iff (p : MRule → Bool) (l : List MRule) (r : MRule) :
    specBestMatch p l = some r ↔
      ∃ l₁ l₂, l = l₁ ++ r :: l₂ ∧ p r = true ∧
        (∀ x ∈ l₁, p x = true → x.priority < r.priority) ∧
        (∀ x ∈ l₂, p x = true → x.priority ≤ r.priority) := by
  constructor
  · induction l with
    | nil => intro h; cases h
    | cons y ys ih =>
      intro h
      rw [specBestMatch_cons] at h
      by_cases hy : p y = true
      · rw [if_pos hy] at h
        cases hbest : specBestMatch p ys with
        | none =>
          rw [hbest] at h; dsimp only at h
          injection h with h
          subst h
          refine ⟨[], ys, rfl, hy, by simp, ?_⟩
          intro x hx hpx
          exact absurd hpx (by simp [specBestMatch_eq_none p ys hbest x hx])
        | some b =>
          rw [hbest] at h; dsimp only at h
          by_cases hlt : y.priority < b.priority
          · rw [if_pos hlt] at h
            injection h with h
            subst h
            obtain ⟨l₁, l₂, hsplit, hp, hl1, hl2⟩ := ih hbest
            refine ⟨y :: l₁, l₂, by rw [hsplit]; rfl, hp, ?_, hl2⟩
            intro x hx hpx
            rcases List.mem_cons.mp hx with rfl | hx
            · exact hlt
            · exact hl1 x hx hpx
          · rw [if_neg hlt] at h
            injection h with h
            subst h
            refine ⟨[], ys, rfl, hy, by simp, ?_⟩
            intro x hx hpx
            have := specBestMatch_max p ys b hbest x hx hpx
            omega
      · rw [if_neg hy] at h
        obtain ⟨l₁, l₂, hsplit, hp, hl1, hl2⟩ := ih h
        refine ⟨y :: l₁, l₂, by rw [hsplit]; rfl, hp, ?_, hl2⟩
        intro x hx hpx
        rcases List.mem_cons.mp hx with rfl | hx
        · exact absurd hpx hy
        · exact hl1 x hx hpx
  · rintro ⟨l₁, l₂, rfl, hp, hl1, hl2⟩
    revert hl1
    induction l₁ with
    | nil =>
      intro hl1
      show specBestMatch p (r :: l₂) = some r
      rw [specBestMatch_cons, if_pos hp]
      cases hbest : specBestMatch p l₂ with
      | none => rfl
      | some b =>
        have hb := specBestMatch_mem p l₂ b hbest
        have := hl2 b hb.1 hb.2
        dsimp only
        rw [if_neg (by omega : ¬ r.priority < b.priority)]
    | cons y l₁ ih =>
      intro hl1
      show specBestMatch p (y :: (l₁ ++ r :: l₂)) = some r
      have hrec : specBestMatch p (l₁ ++ r :: l₂) = some r :=
        ih (fun x hx hpx => hl1 x (by simp [hx]) hpx)
      rw [specBestMatch_cons]
      by_cases hy : p y = true
      · rw [if_pos hy, hrec]
        have hylt : y.priority < r.priority := hl1 y (by simp) hy
        dsimp only
        rw [if_pos hylt]
      · rw [if_neg hy, hrec]

/-- Bridge between the boolean predicate and rule evaluation. -/
theorem matchesOk_eq_true_iff (env : Env) (t : Txn) (x : MRule) :
    matchesOk env t x = true ↔ ruleMatches env x t = .ok true := by
  unfold matchesOk
  cases hm : ruleMatches env x t with
  | error e => simp
  | ok b => cases b <;> simp

/-- C1 counterexample: the rule set holds a priority-2 rule whose `multi`
condition applies `greater_than` to the `description` field (so
`float('my ABC store')` raises `ValueError`) and a priority-1 rule that
matches the transaction.  The matcher raises instead of returning the
(unique) matching rule, so it does not "return the first matching rule"
for this loaded rule set and transaction. -/
theorem rule_matcher_error_preempts_match :
    firstRuleMatch envNone { description := "my ABC store" }
        (loadManualRules
          [MRule.yaml 2 (some (.multi [.gt "description" 100])) {},
           MRule.yaml 1 (some (.contains "description" "ABC")) { tier1 := some "Groceries" }]) =
      Except.error () ∧
    ruleMatches envNone
        (MRule.yaml 1 (some (.contains "description" "ABC")) { tier1 := some "Groceries" })
        { description := "my ABC store" } = Except.ok true :=
  ⟨rfl, rfl⟩

/-- C1 amended: whenever evaluating every loaded rule's conditions raises
no exception, the matcher (the first-match loop over the
priority-descending, stably sorted rule list) returns `r` exactly when the
source-order list splits as `l₁ ++ r :: l₂` with `r`'s conditions true,
every earlier matching rule of strictly lower priority, and every later
matching rule of no higher priority — i.e. it selects the
highest-priority matching rule, first in loaded order among equal
priorities, and (by construction of the loop) consults no rule after the
selected one.  When some rule's evaluation raises, the exception
propagates instead (see the counterexample). -/
theorem first_match_priority_stable (env : Env) (t : Txn) (rules : List MRule)
    (r : MRule)
    (herr : ∀ x ∈ rules, ruleEvalOk env t x = true) :
    firstRuleMatch env t (loadManualRules rules) = Except.ok (some r) ↔
      ∃ l₁ l₂, rules = l₁ ++ r :: l₂ ∧ ruleMatches env r t = Except.ok true ∧
        (∀ x ∈ l₁, ruleMatches env x t = Except.ok true → x.priority < r.priority) ∧
        (∀ x ∈ l₂, ruleMatches env x t = Except.ok true → x.priority ≤ r.priority) := by
  have herr' : ∀ x ∈ sortRulesByPriority rules, ruleEvalOk env t x = true :=
    fun x hx => herr x ((mem_sortRulesByPriority x rules).mp hx)
  show firstRuleMatch env t (sortRulesByPriority rules) = _ ↔ _
  rw [firstRuleMatch_eq_findMatch env t _ herr',
      findMatch_sort_eq_specBestMatch (matchesOk env t) rules]
  constructor
  · intro h
    have h' : specBestMatch (matchesOk env t) rules = some r := by
      injection h
    obtain ⟨l₁, l₂, hsplit, hp, hl1, hl2⟩ :=
      (specBestMatch_eq_some_iff (matchesOk env t) rules r).mp h'
    exact ⟨l₁, l₂, hsplit, (matchesOk_eq_true_iff env t r).mp hp,
           fun x hx hm => hl1 x hx ((matchesOk_eq_true_iff env t x).mpr hm),
           fun x hx hm => hl2 x hx ((matchesOk_eq_true_iff env t x).mpr hm)⟩
  · rintro ⟨l₁, l₂, hsplit, hp, hl1, hl2⟩
    have h' : specBestMatch (matchesOk env t) rules = some r :=
      (specBestMatch_eq_some_iff (matchesOk env t) rules r).mpr
        ⟨l₁, l₂, hsplit, (matchesOk_eq_true_iff env t r).mpr hp,
         fun x hx hpx => hl1 x hx ((matchesOk_eq_true_iff env t x).mp hpx),
         fun x hx hpx => hl2 x hx ((matchesOk_eq_true_iff env t x).mp hpx)⟩
    rw [h']

/-- Witness for C1's amended theorem: two Sheets rules both matching the
transaction; the priority-2 rule, though second in source order, is
selected over the priority-1 rule. -/
theorem first_match_priority_stable_witness :
    (∀ x ∈ [exRuleLow, exRuleHigh], ruleEvalOk envNone exTxn x = true) ∧
    (firstRuleMatch envNone exTxn (loadManualRules [exRuleLow, exRuleHigh]) =
        Except.ok (some exRuleHigh) ↔
      ∃ l₁ l₂, [exRuleLow, exRuleHigh] = l₁ ++ exRuleHigh :: l₂ ∧
        ruleMatches envNone exRuleHigh exTxn = Except.ok true ∧
        (∀ x ∈ l₁, ruleMatches envNone x exTxn = Except.ok true →
          x.priority < exRuleHigh.priority) ∧
        (∀ x ∈ l₂, ruleMatches envNone x exTxn = Except.ok true →
          x.priority ≤ exRuleHigh.priority)) :=
  ⟨by decide,
   first_match_priority_stable envNone exTxn [exRuleLow, exRuleHigh] exRuleHigh (by decide)⟩

end Categorizer
